import Mathlib

/-!
Verification of the layout and scaling logic of the `iconospasos` repository
(revisions `src/pasos2.py` and `src/pasos3.py`) against its design document.

The two Python revisions are shallowly embedded below:
* machine integers are `ℤ` (Python ints are unbounded),
* the chart's vertical offsets are exact rationals `ℚ`
  (the Python float constants 0.55, 0.35, 0.60, 0.85, 0.03, 1.5 are modelled
  by the exact rationals they denote),
* `pandas` missing values (`NaN` cells) are `Option`,
* rows of the source table are `RawRow`; cleaned rows are `Record`.
-/

/-- One cleaned participant row: `Nombre`, `Pasos` (pasos2) / `Paginas` (pasos3),
`Icon`.  The value column is coerced to a Python `int`, hence `ℤ`. -/
structure Record where
  name : String
  value : ℤ
  icon : String
deriving DecidableEq

/-- Placeholder record used as the default of `List.getD`; never produced by the
normalizers (it is only read at out-of-range indices). -/
def recD : Record := { name := "", value := 0, icon := "" }

/-- One raw row of the tabular source after the header rename.  `nombre = none`
models a missing cell (`NaN` in pandas; empty CSV cells read as `NaN`, so an
empty name cell is also `none`).  `pasos` is the raw text of the value cell. -/
structure RawRow where
  nombre : Option String
  pasos : String
  icon : String
deriving DecidableEq

/-- Python `str.strip()` (as used by `df["Nombre"].str.strip()` in pasos3):
drop whitespace from both ends.  Defined structurally over the character list
so that it evaluates inside the kernel. -/
def pyStrip (s : String) : String :=
  String.mk (((s.data.dropWhile Char.isWhitespace).reverse.dropWhile Char.isWhitespace).reverse)

/-- Value of a non-empty digit string. -/
def digitsToNat (cs : List Char) : ℕ :=
  cs.foldl (fun a c => 10 * a + (c.toNat - 48)) 0

/-- `load_data` value parsing (both revisions, pasos2 lines 24-28 and pasos3
lines 34-38): comma grouping is removed from the cell text
(`str.replace(",", "")`), then the text is coerced to a number
(`pd.to_numeric(errors="coerce")`) — a parse failure yields a missing value
(`none`), never an exception; missing values are dropped downstream and the
survivors are cast to `int`.  `pd.to_numeric` accepts more numeric formats than
plain integers; the integer fragment (optional minus sign, one or more digits)
is the part the claims exercise. -/
def parseValue (s : String) : Option ℤ :=
  let cs := s.data.filter (fun c => c ≠ ',')
  match cs with
  | '-' :: rest =>
      if rest ≠ [] ∧ rest.all Char.isDigit then some (-(digitsToNat rest : ℤ)) else none
  | _ =>
      if cs ≠ [] ∧ cs.all Char.isDigit then some ((digitsToNat cs : ℤ)) else none

/-- Row cleaning of pasos2 `load_data` (lines 23-28): drop the row when the
name cell is missing (`dropna(subset=["Nombre"])`), then parse the value cell
and drop the row when parsing fails (`dropna(subset=["Pasos"])`). -/
def row2Record2 (row : RawRow) : Option Record :=
  match row.nombre with
  | none => none
  | some nm => (parseValue row.pasos).map (fun v => { name := nm, value := v, icon := row.icon })

/-- pasos2 `load_data` over the whole table: per-row cleaning, kept rows in
input order. -/
def load_data2 (rows : List RawRow) : List Record :=
  rows.filterMap row2Record2

/-- Row cleaning of pasos3 `load_data` (lines 29-38): drop the row when the
name cell is missing, strip the name and drop the row when it is empty, then
parse the value cell and drop the row when parsing fails. -/
def row2Record3 (row : RawRow) : Option Record :=
  match row.nombre with
  | none => none
  | some nm =>
      if pyStrip nm = "" then none
      else (parseValue row.pasos).map
        (fun v => { name := pyStrip nm, value := v, icon := row.icon })

/-- pasos3 `load_data` over the whole table. -/
def load_data3 (rows : List RawRow) : List Record :=
  rows.filterMap row2Record3

/-- `df["Pasos"].max()` / `df["Paginas"].max()`: the largest value in the
frame.  `render_chart` returns before computing it when the frame is empty, so
the `0` returned on `[]` is never consumed by the embedded pipelines. -/
def winner : List Record → ℤ
  | [] => 0
  | r :: rest => rest.foldl (fun a s => max a s.value) r.value

/-- pasos2 line 62: `MAX_STEPS = max(max_value * 2, 10)`. -/
def axisMax2 (rs : List Record) : ℤ :=
  max (winner rs * 2) 10

/-- pasos3 line 100: `MAX_STEPS = max(int(math.ceil(winner * 1.5)), 10)`.
For an integer `w`, `math.ceil(w * 1.5) = ⌈3w/2⌉`, which is the floor division
`(3w + 1).fdiv 2` (see `axisMax3_eq_ceil`). -/
def axisMax3 (rs : List Record) : ℤ :=
  max ((3 * winner rs + 1).fdiv 2) 10

theorem fdiv_two_eq_ceil (w : ℤ) : ((3 * w + 1).fdiv 2 : ℤ) = ⌈(w : ℚ) * 1.5⌉ := by
  have he : (3 * w + 1).fdiv 2 = (3 * w + 1) / 2 := Int.fdiv_eq_ediv _ (by norm_num)
  have h1 : 2 * ((3 * w + 1) / 2) ≤ 3 * w + 1 := by omega
  have h2 : 3 * w + 1 < 2 * ((3 * w + 1) / 2) + 2 := by omega
  rw [he]
  symm
  rw [Int.ceil_eq_iff]
  rw [show (1.5 : ℚ) = 3 / 2 by norm_num]
  constructor
  · rw [show ((w : ℚ)) * (3 / 2) = 3 * w / 2 by ring, lt_div_iff₀ (by norm_num : (0:ℚ) < 2)]
    have h1q : (2 : ℚ) * (((3 * w + 1) / 2 : ℤ) : ℚ) ≤ 3 * (w : ℚ) + 1 := by exact_mod_cast h1
    linarith
  · rw [show ((w : ℚ)) * (3 / 2) = 3 * w / 2 by ring, div_le_iff₀ (by norm_num : (0:ℚ) < 2)]
    have h3 : 3 * w ≤ 2 * ((3 * w + 1) / 2) := by omega
    have h3q : 3 * (w : ℚ) ≤ 2 * (((3 * w + 1) / 2 : ℤ) : ℚ) := by exact_mod_cast h3
    linarith

/-- `axisMax3` is the source's `max(math.ceil(winner * 1.5), 10)` with the
ceiling taken in exact arithmetic. -/
theorem axisMax3_eq_ceil (rs : List Record) :
    axisMax3 rs = max (⌈(winner rs : ℚ) * 1.5⌉) 10 := by
  unfold axisMax3
  rw [fdiv_two_eq_ceil]

theorem value_le_foldl_max (l : List Record) (a : ℤ) :
    a ≤ l.foldl (fun x s => max x s.value) a := by
  induction l generalizing a with
  | nil => exact le_refl a
  | cons s t ih => exact le_trans (le_max_left a s.value) (ih _)

theorem mem_le_foldl_max (l : List Record) (r : Record) :
    r ∈ l → ∀ a : ℤ, r.value ≤ l.foldl (fun x s => max x s.value) a := by
  induction l with
  | nil => intro h; cases h
  | cons s t ih =>
    intro h a
    rcases List.mem_cons.mp h with h1 | h2
    · subst h1
      exact le_trans (le_max_right a r.value) (value_le_foldl_max t _)
    · exact ih h2 _

theorem le_winner (rs : List Record) (r : Record) (h : r ∈ rs) :
    r.value ≤ winner rs := by
  cases rs with
  | nil => cases h
  | cons s t =>
    rcases List.mem_cons.mp h with h1 | h2
    · subst h1
      exact value_le_foldl_max t r.value
    · exact mem_le_foldl_max t r h2 s.value

/-- pasos2 lines 68-71: `groups.setdefault(x, []).append(row)` — one step of
building the insertion-ordered dict from value to the rows carrying it. -/
def addRow (gs : List (ℤ × List Record)) (r : Record) : List (ℤ × List Record) :=
  match gs with
  | [] => [(r.value, [r])]
  | (x, rows) :: rest =>
      if x = r.value then (x, rows ++ [r]) :: rest else (x, rows) :: addRow rest r

/-- The dict `groups` of pasos2 lines 68-71, built over the frame's rows in
input order. -/
def buildGroups (rs : List Record) : List (ℤ × List Record) :=
  rs.foldl addRow []

/-- Dict lookup `groups[v]`, with `[]` when the key is absent. -/
def lookupG : List (ℤ × List Record) → ℤ → List Record
  | [], _ => []
  | g :: rest, v => if g.1 = v then g.2 else lookupG rest v

theorem lookupG_addRow (gs : List (ℤ × List Record)) (r : Record) (v : ℤ) :
    lookupG (addRow gs r) v =
      if r.value = v then lookupG gs v ++ [r] else lookupG gs v := by
  induction gs with
  | nil =>
    by_cases h : r.value = v <;> simp [addRow, lookupG, h]
  | cons g rest ih =>
    by_cases hx : g.1 = r.value
    · by_cases hv : g.1 = v
      · rw [hx] at hv
        simp only [addRow, if_pos hx, lookupG, hx, if_pos hv, hv]
        simp
      · have hrv : ¬ r.value = v := fun h => hv (hx ▸ h)
        simp only [addRow, if_pos hx, lookupG, hv, if_neg hv, if_neg hrv]
        simp
    · by_cases hv : g.1 = v
      · have hrv : ¬ r.value = v := fun h => hx (hv ▸ h.symm)
        simp only [addRow, if_neg hx, lookupG, if_pos hv, if_neg hrv]
      · simp only [addRow, if_neg hx, lookupG, if_neg hv]
        exact ih

theorem lookupG_foldl (rs : List Record) :
    ∀ (gs : List (ℤ × List Record)) (v : ℤ),
      lookupG (rs.foldl addRow gs) v =
        lookupG gs v ++ rs.filter (fun r => r.value == v) := by
  induction rs with
  | nil => intro gs v; simp
  | cons r t ih =>
    intro gs v
    simp only [List.foldl_cons, List.filter_cons]
    rw [ih (addRow gs r) v, lookupG_addRow]
    by_cases h : r.value = v
    · have hb : (r.value == v) = true := by simp [h]
      rw [if_pos h, hb]
      simp [List.append_assoc]
    · have hb : (r.value == v) = false := by simp [h]
      rw [if_neg h, hb]
      simp

theorem lookupG_buildGroups (rs : List Record) (v : ℤ) :
    lookupG (buildGroups rs) v = rs.filter (fun r => r.value == v) := by
  unfold buildGroups
  rw [lookupG_foldl]
  simp [lookupG]

theorem lookupG_mem (gs : List (ℤ × List Record)) (v : ℤ) :
    lookupG gs v ≠ [] → (v, lookupG gs v) ∈ gs := by
  induction gs with
  | nil => intro h; simp [lookupG] at h
  | cons g rest ih =>
    intro h
    by_cases hv : g.1 = v
    · simp only [lookupG, if_pos hv]
      subst hv
      simp
    · simp only [lookupG, if_neg hv] at h ⊢
      exact List.mem_cons_of_mem _ (ih h)

/-- Python `sorted` / `list.sort` with an integer key: ascending insertion
sort, stable (an element is inserted before the strictly larger ones and after
the earlier, less-or-equal ones). -/
def insertByKey {α : Type} (key : α → ℤ) (x : α) : List α → List α
  | [] => [x]
  | y :: ys => if key y < key x then y :: insertByKey key x ys else x :: y :: ys

/-- Stable ascending sort by an integer key, modelling Python list sorting. -/
def sortByKey {α : Type} (key : α → ℤ) : List α → List α
  | [] => []
  | x :: xs => insertByKey key x (sortByKey key xs)

theorem mem_insertByKey {α : Type} (key : α → ℤ) (x a : α) :
    ∀ l : List α, a ∈ insertByKey key x l ↔ a = x ∨ a ∈ l := by
  intro l
  induction l with
  | nil => simp [insertByKey]
  | cons y ys ih =>
    by_cases h : key y < key x
    · simp only [insertByKey, if_pos h, List.mem_cons, ih]
      tauto
    · simp only [insertByKey, if_neg h, List.mem_cons]

theorem mem_sortByKey {α : Type} (key : α → ℤ) (a : α) :
    ∀ l : List α, a ∈ sortByKey key l ↔ a ∈ l := by
  intro l
  induction l with
  | nil => simp [sortByKey]
  | cons x xs ih =>
    simp only [sortByKey, mem_insertByKey, ih, List.mem_cons]

/-- pasos2 `render_chart`, lines 73-97: iterate the value groups in ascending
value order (`sorted(groups.items())`); inside a group of `n` rows the `i`-th
row (0-indexed, input order) gets marker y `start_y + i * STACK_STEP` with
`STACK_STEP = 0.35` and `start_y = 0.55 - (n - 1) * (STACK_STEP / 2.0)`
(lines 67, 75-77), and its name label is drawn at `y + 0.35` (line 96).
Each output triple is (row, marker y, label y). -/
def render2 (rs : List Record) : List (Record × ℚ × ℚ) :=
  (sortByKey (fun g => g.1) (buildGroups rs)).flatMap (fun g =>
    g.2.enum.map (fun p =>
      (p.2, 0.55 - ((g.2.length : ℚ) - 1) * (0.35 / 2) + (p.1 : ℚ) * 0.35,
        (0.55 - ((g.2.length : ℚ) - 1) * (0.35 / 2) + (p.1 : ℚ) * 0.35) + 0.35)))

/-- Number of rows strictly before input position `j` that share position
`j`'s value: the position of row `j` inside its value group. -/
def countBefore (rs : List Record) (j : ℕ) : ℕ :=
  ((rs.take j).filter (fun r => r.value == (rs.getD j recD).value)).length

/-- Size of the value group of the row at input position `j`. -/
def groupSizeAt (rs : List Record) (j : ℕ) : ℕ :=
  (rs.filter (fun r => r.value == (rs.getD j recD).value)).length

/-- Marker y that pasos2 assigns to the row at input position `j` (see
`render2_pos_mem`). -/
def markerY2pos (rs : List Record) (j : ℕ) : ℚ :=
  0.55 - ((groupSizeAt rs j : ℚ) - 1) * (0.35 / 2) + (countBefore rs j : ℚ) * 0.35

theorem countBefore_lt_and_getD (p : Record → Bool) :
    ∀ (rs : List Record) (j : ℕ), j < rs.length → p (rs.getD j recD) = true →
      ((rs.take j).filter p).length < (rs.filter p).length ∧
        (rs.filter p).getD (((rs.take j).filter p).length) recD = rs.getD j recD := by
  intro rs
  induction rs with
  | nil => intro j h; exact absurd h (Nat.not_lt_zero j)
  | cons r t ih =>
    intro j hj hp
    cases j with
    | zero =>
      rw [List.getD_cons_zero] at hp ⊢
      rw [List.take_zero, List.filter_nil, List.length_nil, List.filter_cons, if_pos hp]
      exact ⟨Nat.succ_pos _, List.getD_cons_zero⟩
    | succ j =>
      rw [List.getD_cons_succ] at hp ⊢
      have hj' : j < t.length := Nat.lt_of_succ_lt_succ hj
      obtain ⟨ih1, ih2⟩ := ih j hj' hp
      rw [List.take_succ_cons, List.filter_cons, List.filter_cons]
      by_cases hpr : p r = true
      · rw [if_pos hpr, if_pos hpr]
        simp only [List.length_cons, List.getD_cons_succ]
        exact ⟨Nat.succ_lt_succ ih1, ih2⟩
      · rw [if_neg hpr, if_neg hpr]
        exact ⟨ih1, ih2⟩

theorem getD_take (rs : List Record) (j k : ℕ) (hjk : j < k) (hj : j < rs.length) :
    (rs.take k).getD j recD = rs.getD j recD := by
  have hlen : j < (rs.take k).length := by
    rw [List.length_take]
    exact lt_min hjk hj
  rw [List.getD_eq_getElem _ _ hlen, List.getD_eq_getElem _ _ hj]
  exact List.getElem_take rs

theorem countBefore_mono (rs : List Record) (j k : ℕ) (hjk : j < k) (hk : k < rs.length)
    (hv : (rs.getD j recD).value = (rs.getD k recD).value) :
    countBefore rs j < countBefore rs k := by
  have hj : j < rs.length := lt_trans hjk hk
  have hjt : j < (rs.take k).length := by
    rw [List.length_take]; exact lt_min hjk hj
  have hgd : (rs.take k).getD j recD = rs.getD j recD := getD_take rs j k hjk hj
  obtain ⟨h1, _⟩ := countBefore_lt_and_getD
    (fun r => r.value == (rs.getD k recD).value) (rs.take k) j hjt
    (by rw [hgd, beq_iff_eq]; exact hv)
  unfold countBefore
  rw [← hv] at h1
  have ht : (rs.take k).take j = rs.take j := by
    rw [List.take_take]
    congr 1
    omega
  rw [ht] at h1
  have hgk : (rs.take k).getD j recD = rs.getD j recD := hgd
  calc ((rs.take j).filter (fun r => r.value == (rs.getD j recD).value)).length
      < ((rs.take k).filter (fun r => r.value == (rs.getD j recD).value)).length := by
        have := h1
        simpa [hgd] using this
    _ = ((rs.take k).filter (fun r => r.value == (rs.getD k recD).value)).length := by
        rw [hv]

theorem render2_mem (rs : List Record) (v : ℤ) (i : ℕ)
    (h : i < (rs.filter (fun r => r.value == v)).length) :
    ((rs.filter (fun r => r.value == v)).getD i recD,
      0.55 - (((rs.filter (fun r => r.value == v)).length : ℚ) - 1) * (0.35 / 2) + (i : ℚ) * 0.35,
      (0.55 - (((rs.filter (fun r => r.value == v)).length : ℚ) - 1) * (0.35 / 2)
        + (i : ℚ) * 0.35) + 0.35) ∈ render2 rs := by
  have hne : rs.filter (fun r => r.value == v) ≠ [] := by
    intro he
    rw [he] at h
    exact absurd h (Nat.not_lt_zero i)
  have hlk : lookupG (buildGroups rs) v = rs.filter (fun r => r.value == v) :=
    lookupG_buildGroups rs v
  have hmem : (v, rs.filter (fun r => r.value == v)) ∈ buildGroups rs := by
    rw [← hlk]
    exact lookupG_mem _ _ (by rw [hlk]; exact hne)
  have hmem2 : (v, rs.filter (fun r => r.value == v))
      ∈ sortByKey (fun g => g.1) (buildGroups rs) :=
    (mem_sortByKey _ _ _).mpr hmem
  unfold render2
  rw [List.mem_flatMap]
  refine ⟨(v, rs.filter (fun r => r.value == v)), hmem2, ?_⟩
  rw [List.mem_map]
  refine ⟨(i, (rs.filter (fun r => r.value == v)).getD i recD), ?_, rfl⟩
  have hi : i < (rs.filter (fun r => r.value == v)).enum.length := by
    rw [List.enum_length]
    exact h
  have he : (rs.filter (fun r => r.value == v)).enum[i] =
      (i, (rs.filter (fun r => r.value == v))[i]) := List.getElem_enum _ _ _
  rw [List.getD_eq_getElem _ _ h, ← he]
  exact List.getElem_mem hi

/-- Marker y plus label y that pasos2 assigns to the row at input position `j`:
the record at position `j` is placed at `markerY2pos rs j` with its label
0.35 above it. -/
theorem render2_pos_mem (rs : List Record) (j : ℕ) (hj : j < rs.length) :
    (rs.getD j recD, markerY2pos rs j, markerY2pos rs j + 0.35) ∈ render2 rs := by
  obtain ⟨hlt, hgd⟩ := countBefore_lt_and_getD
    (fun r => r.value == (rs.getD j recD).value) rs j hj (by rw [beq_iff_eq])
  have := render2_mem rs (rs.getD j recD).value (countBefore rs j) hlt
  rw [show (rs.filter (fun r => r.value == (rs.getD j recD).value)).getD
        (countBefore rs j) recD = rs.getD j recD from hgd] at this
  exact this

/-- One element of pasos3's `entries` list (render_chart lines 108-116):
the row's value (`steps`), name, icon and stacked marker baseline `base_y`. -/
structure Entry where
  steps : ℤ
  name : String
  icon : String
  base_y : ℚ
deriving DecidableEq

/-- Default entry for `List.getD`, read only at out-of-range indices. -/
def entD : Entry := { steps := 0, name := "", icon := "", base_y := 0 }

/-- pasos3 render_chart lines 106-116: build `entries` left to right, keeping
the running per-value counter `by_x` (a dict from value to the number of rows
of that value already seen, modelled as a function with default 0):
`level = by_x.get(steps, 0)`, `base_y = 0.55 + level * STACK_STEP`,
`by_x[steps] = level + 1` with `STACK_STEP = 0.35`. -/
def step1 (byx : ℤ → ℕ) : List Record → List Entry
  | [] => []
  | r :: rest =>
      { steps := r.value, name := r.name, icon := r.icon,
        base_y := 0.55 + (byx r.value : ℚ) * 0.35 }
        :: step1 (fun v => if v = r.value then byx r.value + 1 else byx v) rest

/-- The `entries` list of pasos3 before sorting. -/
def entries3 (rs : List Record) : List Entry :=
  step1 (fun _ => 0) rs

/-- Marker baseline pasos3 assigns to the row at input position `j` (see
`entries3_getD`): `0.55 + (number of earlier rows with the same value) * 0.35`. -/
def baseY3pos (rs : List Record) (j : ℕ) : ℚ :=
  0.55 + (countBefore rs j : ℚ) * 0.35

theorem step1_length (byx : ℤ → ℕ) (rs : List Record) :
    (step1 byx rs).length = rs.length := by
  induction rs generalizing byx with
  | nil => rfl
  | cons r rest ih => simp [step1, ih]

theorem step1_getD (rs : List Record) :
    ∀ (byx : ℤ → ℕ) (j : ℕ), j < rs.length →
      (step1 byx rs).getD j entD =
        { steps := (rs.getD j recD).value, name := (rs.getD j recD).name,
          icon := (rs.getD j recD).icon,
          base_y := 0.55 + ((byx (rs.getD j recD).value + countBefore rs j : ℕ) : ℚ) * 0.35 } := by
  induction rs with
  | nil => intro byx j h; exact absurd h (Nat.not_lt_zero j)
  | cons r rest ih =>
    intro byx j hj
    cases j with
    | zero =>
      simp only [step1, List.getD_cons_zero, countBefore, List.take_zero,
        List.filter_nil, List.length_nil, Nat.add_zero]
    | succ j =>
      have hj' : j < rest.length := Nat.lt_of_succ_lt_succ hj
      simp only [step1, List.getD_cons_succ]
      rw [ih _ j hj']
      have hcb : countBefore (r :: rest) (j + 1) =
          (if r.value = (rest.getD j recD).value then 1 else 0) + countBefore rest j := by
        unfold countBefore
        rw [List.getD_cons_succ, List.take_succ_cons, List.filter_cons]
        by_cases hrv : r.value = (rest.getD j recD).value
        · have hb : (r.value == (rest.getD j recD).value) = true := by
            rw [beq_iff_eq]; exact hrv
          simp only [hb, if_pos hrv, if_true, List.length_cons]
          omega
        · have hb : (r.value == (rest.getD j recD).value) = false := by
            rw [beq_eq_false_iff_ne]; exact hrv
          simp only [hb, if_neg hrv, Bool.false_eq_true, if_false, Nat.zero_add]
      rw [hcb]
      simp only [Entry.mk.injEq, true_and]
      by_cases hrv : (rest.getD j recD).value = r.value
      · rw [if_pos hrv, if_pos hrv.symm, hrv]
        push_cast
        ring
      · rw [if_neg hrv, if_neg (fun h => hrv h.symm)]
        push_cast
        ring

/-- The entry built for input position `j` carries the row's fields and the
stacked baseline `baseY3pos rs j`. -/
theorem entries3_getD (rs : List Record) (j : ℕ) (hj : j < rs.length) :
    (entries3 rs).getD j entD =
      { steps := (rs.getD j recD).value, name := (rs.getD j recD).name,
        icon := (rs.getD j recD).icon, base_y := baseY3pos rs j } := by
  unfold entries3 baseY3pos
  rw [step1_getD rs _ j hj]
  simp

/-- pasos3 lines 119-120: `NEAR_PCT = 0.03`, `dx_thresh = MAX_STEPS * NEAR_PCT`,
and the comparison `entries[i]["steps"] - entries[i-1]["steps"] > dx_thresh`
(line 129).  The exact comparison `gap > ms * 3/100` is written over `ℤ` as
`100 * gap > 3 * ms` so that it evaluates inside the kernel; `farApart_iff`
states the equivalence. -/
def farApart (ms gap : ℤ) : Bool := 100 * gap > 3 * ms

theorem farApart_iff (ms gap : ℤ) :
    farApart ms gap = true ↔ (gap : ℚ) > (ms : ℚ) * 0.03 := by
  unfold farApart
  rw [decide_eq_true_iff]
  rw [show (0.03 : ℚ) = 3 / 100 by norm_num,
    show (ms : ℚ) * (3 / 100) = (3 * ms : ℚ) / 100 by ring,
    gt_iff_lt, gt_iff_lt, div_lt_iff₀ (by norm_num : (0:ℚ) < 100)]
  constructor
  · intro h
    have hq : ((3 * ms : ℤ) : ℚ) < ((100 * gap : ℤ) : ℚ) := by exact_mod_cast h
    push_cast at hq ⊢
    linarith
  · intro h
    have hq : ((3 * ms : ℤ) : ℚ) < ((gap * 100 : ℤ) : ℚ) := by push_cast; push_cast at h; linarith
    have hz : (3 * ms : ℤ) < gap * 100 := by exact_mod_cast hq
    omega

/-- The walk of pasos3 lines 125-134 from the second entry on, carrying the
previous entry's steps and assigned label level: an entry whose gap to the
previous one exceeds the threshold starts a new cluster at level 0, otherwise
it takes `(previous level + 1) % len(LABEL_LEVELS)` with 3 levels. -/
def labelLevelsAux (ms prevStep : ℤ) (prevLevel : ℕ) : List ℤ → List ℕ
  | [] => []
  | s :: rest =>
      (if farApart ms (s - prevStep) then 0 else (prevLevel + 1) % 3)
        :: labelLevelsAux ms s
            (if farApart ms (s - prevStep) then 0 else (prevLevel + 1) % 3) rest

/-- Label levels pasos3 assigns to the ascending-sorted steps list
(lines 123-134): the first entry (`i == cluster_start` holds only at `i = 0`)
gets level 0, the rest follow the walk `labelLevelsAux`. -/
def labelLevels3 (ms : ℤ) : List ℤ → List ℕ
  | [] => []
  | s :: rest => 0 :: labelLevelsAux ms s 0 rest

/-- pasos3 line 121: `LABEL_LEVELS = [0.35, 0.60, 0.85]`. -/
def LABEL_LEVELS : List ℚ := [0.35, 0.60, 0.85]

/-- pasos3 line 152: `name_y = base_y + LABEL_LEVELS[e["label_level"]]`.  The
assigned level is always < 3 (`labelLevels3_lt`), so the `getD` default is
never read. -/
def labelY3 (e : Entry) (lvl : ℕ) : ℚ := e.base_y + LABEL_LEVELS.getD lvl 0

/-- pasos3 render_chart lines 106-153: build entries with the stacking
counter, sort them ascending by steps (`entries.sort(key=lambda e:
e["steps"])`, stable), run the label de-collision walk over the sorted list,
and pair each sorted entry with its label level. -/
def render3 (rs : List Record) : List (Entry × ℕ) :=
  (sortByKey (fun e => e.steps) (entries3 rs)).zip
    (labelLevels3 (axisMax3 rs)
      ((sortByKey (fun e => e.steps) (entries3 rs)).map (fun e => e.steps)))

theorem labelLevelsAux_lt (l : List ℤ) :
    ∀ (ms p : ℤ) (pl : ℕ) (x : ℕ), x ∈ labelLevelsAux ms p pl l → x < 3 := by
  induction l with
  | nil => intro ms p pl x h; simp [labelLevelsAux] at h
  | cons s rest ih =>
    intro ms p pl x h
    rcases List.mem_cons.mp h with h1 | h2
    · subst h1
      by_cases hf : farApart ms (s - p) = true
      · rw [if_pos hf]; omega
      · rw [if_neg hf]; exact Nat.mod_lt _ (by omega)
    · exact ih ms s _ x h2

theorem labelLevels3_lt (ms : ℤ) (l : List ℤ) (x : ℕ) (h : x ∈ labelLevels3 ms l) :
    x < 3 := by
  cases l with
  | nil => simp [labelLevels3] at h
  | cons s rest =>
    rcases List.mem_cons.mp h with h1 | h2
    · omega
    · exact labelLevelsAux_lt rest ms s 0 x h2

theorem labelLevelsAux_length (l : List ℤ) :
    ∀ (ms p : ℤ) (pl : ℕ), (labelLevelsAux ms p pl l).length = l.length := by
  induction l with
  | nil => intro ms p pl; rfl
  | cons s rest ih => intro ms p pl; simp [labelLevelsAux, ih]

theorem labelLevels3_length (ms : ℤ) (l : List ℤ) :
    (labelLevels3 ms l).length = l.length := by
  cases l with
  | nil => rfl
  | cons s rest => simp [labelLevels3, labelLevelsAux_length]

theorem labelLevelsAux_getD (l : List ℤ) :
    ∀ (ms p : ℤ) (pl : ℕ) (i : ℕ), i + 1 < l.length →
      (labelLevelsAux ms p pl l).getD (i + 1) 0 =
        if farApart ms (l.getD (i + 1) 0 - l.getD i 0) then 0
        else ((labelLevelsAux ms p pl l).getD i 0 + 1) % 3 := by
  induction l with
  | nil => intro ms p pl i h; simp at h
  | cons s rest ih =>
    intro ms p pl i h
    cases i with
    | zero =>
      cases rest with
      | nil => simp at h
      | cons s2 rest2 =>
        simp only [labelLevelsAux, List.getD_cons_succ, List.getD_cons_zero]
    | succ i =>
      have h' : i + 1 < rest.length := by
        simp only [List.length_cons] at h
        omega
      simp only [labelLevelsAux, List.getD_cons_succ]
      exact ih ms s _ i h'

theorem labelLevels3_getD_zero (ms : ℤ) (l : List ℤ) (h : l ≠ []) :
    (labelLevels3 ms l).getD 0 0 = 0 := by
  cases l with
  | nil => exact absurd rfl h
  | cons s rest => rfl

theorem labelLevels3_getD_succ (ms : ℤ) (l : List ℤ) (i : ℕ) (h : i + 1 < l.length) :
    (labelLevels3 ms l).getD (i + 1) 0 =
      if farApart ms (l.getD (i + 1) 0 - l.getD i 0) then 0
      else ((labelLevels3 ms l).getD i 0 + 1) % 3 := by
  cases l with
  | nil => simp at h
  | cons s rest =>
    cases i with
    | zero =>
      cases rest with
      | nil => simp at h
      | cons s2 rest2 =>
        simp only [labelLevels3, labelLevelsAux, List.getD_cons_succ, List.getD_cons_zero]
    | succ i =>
      have h' : i + 1 < rest.length := by
        simp only [List.length_cons] at h
        omega
      simp only [labelLevels3, List.getD_cons_succ]
      exact labelLevelsAux_getD rest ms s 0 i h'

theorem stack_sep (c a b : ℚ) (h : a + 1 ≤ b) :
    c + a * 0.35 ≠ c + b * 0.35 ∧ 0.35 ≤ |(c + a * 0.35) - (c + b * 0.35)| := by
  constructor
  · intro he
    have hab : a * 0.35 = b * 0.35 := by linarith
    have : a = b := by
      have h35 : (0.35 : ℚ) ≠ 0 := by norm_num
      exact mul_right_cancel₀ h35 hab
    linarith
  · have hd : (c + a * 0.35) - (c + b * 0.35) = (a - b) * 0.35 := by ring
    rw [hd]
    have hle : (a - b) * 0.35 ≤ -0.35 := by linarith
    rw [abs_of_nonpos (by linarith)]
    linarith

/-- C1: for every non-empty record list the computed axis upper bound — in
both revisions — is at least the largest record value (hence at least each
record's value) and at least the configured minimum axis maximum, 10. -/
theorem C1_axis_upper_bound (rs : List Record) (r : Record) (h : r ∈ rs) :
    r.value ≤ axisMax2 rs ∧ (10 : ℤ) ≤ axisMax2 rs ∧
      r.value ≤ axisMax3 rs ∧ (10 : ℤ) ≤ axisMax3 rs := by
  have hw := le_winner rs r h
  have hfd : (3 * winner rs + 1).fdiv 2 = (3 * winner rs + 1) / 2 :=
    Int.fdiv_eq_ediv _ (by norm_num)
  refine ⟨?_, le_max_right _ _, ?_, le_max_right _ _⟩
  · unfold axisMax2
    rcases le_or_lt 0 (winner rs) with h0 | h0
    · exact le_trans (by omega : r.value ≤ winner rs * 2) (le_max_left _ _)
    · exact le_trans (by omega : r.value ≤ (10 : ℤ)) (le_max_right _ _)
  · unfold axisMax3
    rcases le_or_lt 0 (winner rs) with h0 | h0
    · exact le_trans (by omega : r.value ≤ (3 * winner rs + 1).fdiv 2) (le_max_left _ _)
    · exact le_trans (by omega : r.value ≤ (10 : ℤ)) (le_max_right _ _)

/-- C1 witness: the single record (A, 50). -/
theorem C1_axis_upper_bound_witness :
    (50 : ℤ) ≤ axisMax2 [{ name := "A", value := 50, icon := "" }] ∧
      (10 : ℤ) ≤ axisMax2 [{ name := "A", value := 50, icon := "" }] ∧
      (50 : ℤ) ≤ axisMax3 [{ name := "A", value := 50, icon := "" }] ∧
      (10 : ℤ) ≤ axisMax3 [{ name := "A", value := 50, icon := "" }] :=
  C1_axis_upper_bound [{ name := "A", value := 50, icon := "" }]
    { name := "A", value := 50, icon := "" } (List.mem_singleton.mpr rfl)

/-- Modelled from the spec: the configurable axis scaling policy of spec §4.1
and §6 is not implemented by the revisions under src/ (pasos2 hard-codes scale
factor 2 with no snapping, pasos3 hard-codes 1.5 with no snapping), so the
nice-ceiling rounding policy — snap the raw bound upward to the nearest value
of the form (1|2|5)·10^k — is modelled here from the spec's words.  `niceUp`
scans that family upward from `p = 10^0`; the fuel argument only needs to
exceed the number of decimal digits of `raw` and is passed as `raw` itself. -/
def niceUp (raw : ℕ) : ℕ → ℕ → ℕ
  | 0, p => p
  | fuel + 1, p =>
      if raw ≤ p then p
      else if raw ≤ 2 * p then 2 * p
      else if raw ≤ 5 * p then 5 * p
      else niceUp raw fuel (10 * p)

/-- Modelled from the spec: nice-ceiling snapping of a raw upper bound; raw
bounds at most 1 (including non-positive ones) snap to 1 = 1·10^0. -/
def niceCeiling (raw : ℤ) : ℤ :=
  (niceUp raw.toNat raw.toNat 1 : ℕ)

/-- Modelled from the spec: `computeAxis` of spec §4.1 parameterized by
`scaleFactor` (default 1.5), the rounding policy (`true` = nice-ceiling,
`false` = exact) and `minAxisMax` (default 10): the winner is scaled, the
ceiling is taken, the rounding policy is applied, and the result is floored at
the configured minimum. -/
def computeAxisMax (scaleFactor : ℚ) (nice : Bool) (minAxisMax : ℤ)
    (rs : List Record) : ℤ :=
  max
    (if nice then niceCeiling ⌈(winner rs : ℚ) * scaleFactor⌉
     else ⌈(winner rs : ℚ) * scaleFactor⌉)
    minAxisMax

/-- C6: a single record of value 50 under scaleFactor 1.5, nice-ceiling
rounding and minimum 10 yields axis maximum 100: raw = ceil(75) = 75 snaps up
to 100 = 1·10^2. -/
theorem C6_nice_ceiling_scenario :
    computeAxisMax 1.5 true 10 [{ name := "A", value := 50, icon := "" }] = 100 := by
  unfold computeAxisMax
  rw [if_pos rfl]
  rw [show winner [{ name := "A", value := 50, icon := "" }] = 50 from rfl]
  rw [← fdiv_two_eq_ceil 50]
  decide

/-- C3: pasos2's symmetric stacking — within the group of records sharing
value `v`, the `i`-th member (0-indexed, original input order) of the group of
size `n` is placed at marker y = B − (n−1)·S/2 + i·S with baseline B = 0.55
and step S = 0.35 (its label 0.35 higher); a group of size 1 is placed exactly
at B. -/
theorem C3_symmetric_stacking (rs : List Record) (v : ℤ) (i : ℕ)
    (h : i < (rs.filter (fun r => r.value == v)).length) :
    (((rs.filter (fun r => r.value == v)).getD i recD,
      0.55 - (((rs.filter (fun r => r.value == v)).length : ℚ) - 1) * 0.35 / 2
        + (i : ℚ) * 0.35,
      (0.55 - (((rs.filter (fun r => r.value == v)).length : ℚ) - 1) * 0.35 / 2
        + (i : ℚ) * 0.35) + 0.35) ∈ render2 rs) ∧
    ((rs.filter (fun r => r.value == v)).length = 1 →
      0.55 - (((rs.filter (fun r => r.value == v)).length : ℚ) - 1) * 0.35 / 2
        + (i : ℚ) * 0.35 = 0.55) := by
  constructor
  · have he : ∀ n : ℚ, 0.55 - (n - 1) * 0.35 / 2 + (i : ℚ) * 0.35
        = 0.55 - (n - 1) * (0.35 / 2) + (i : ℚ) * 0.35 := by
      intro n
      ring
    rw [he]
    exact render2_mem rs v i h
  · intro hn
    have hi0 : i = 0 := by omega
    rw [hn, hi0]
    norm_num

/-- Two records tied at value 100, used by several scenario theorems. -/
def twoTied : List Record :=
  [{ name := "A", value := 100, icon := "" }, { name := "B", value := 100, icon := "" }]

/-- C3 witness: two records tied at 100; the first member of the group. -/
theorem C3_symmetric_stacking_witness :
    (((twoTied.filter (fun r => r.value == (100 : ℤ))).getD 0 recD,
      0.55 - (((twoTied.filter (fun r => r.value == (100 : ℤ))).length : ℚ) - 1) * 0.35 / 2
        + ((0 : ℕ) : ℚ) * 0.35,
      (0.55 - (((twoTied.filter (fun r => r.value == (100 : ℤ))).length : ℚ) - 1) * 0.35 / 2
        + ((0 : ℕ) : ℚ) * 0.35) + 0.35) ∈ render2 twoTied) ∧
    ((twoTied.filter (fun r => r.value == (100 : ℤ))).length = 1 →
      0.55 - (((twoTied.filter (fun r => r.value == (100 : ℤ))).length : ℚ) - 1) * 0.35 / 2
        + ((0 : ℕ) : ℚ) * 0.35 = 0.55) :=
  C3_symmetric_stacking twoTied 100 0 (by decide)

/-- C10: in the pasos2 revision every record's label y equals its marker y
plus the fixed constant 0.35 — no de-collision pass exists there, so the
label offset is independent of all other records' values, and any two records
(close values or not) get the same offset above their markers. -/
theorem C10_fixed_label_offset (rs : List Record) (t : Record × ℚ × ℚ)
    (h : t ∈ render2 rs) : t.2.2 = t.2.1 + 0.35 := by
  unfold render2 at h
  rw [List.mem_flatMap] at h
  obtain ⟨g, hg, hm⟩ := h
  rw [List.mem_map] at hm
  obtain ⟨p, hp, he⟩ := hm
  rw [← he]

/-- C10 witness: the single record (A, 5). -/
theorem C10_fixed_label_offset_witness :
    ((({ name := "A", value := 5, icon := "" } : Record),
        markerY2pos [{ name := "A", value := 5, icon := "" }] 0,
        markerY2pos [{ name := "A", value := 5, icon := "" }] 0 + 0.35) : Record × ℚ × ℚ).2.2 =
      ((({ name := "A", value := 5, icon := "" } : Record),
        markerY2pos [{ name := "A", value := 5, icon := "" }] 0,
        markerY2pos [{ name := "A", value := 5, icon := "" }] 0 + 0.35) : Record × ℚ × ℚ).2.1
        + 0.35 :=
  C10_fixed_label_offset [{ name := "A", value := 5, icon := "" }] _
    (render2_pos_mem [{ name := "A", value := 5, icon := "" }] 0 (by decide))

/-- C5: in both revisions, every placed label sits strictly above its own
marker: in pasos2 the label is the marker y plus 0.35; in pasos3 it is the
marker baseline plus `LABEL_LEVELS[label_level]`, and all three level offsets
are positive. -/
theorem C5_label_above_marker :
    (∀ (rs : List Record) (t : Record × ℚ × ℚ), t ∈ render2 rs → t.2.1 < t.2.2) ∧
    (∀ (rs : List Record) (p : Entry × ℕ), p ∈ render3 rs → p.1.base_y < labelY3 p.1 p.2) := by
  constructor
  · intro rs t h
    have he := C10_fixed_label_offset rs t h
    rw [he]
    have h35 : (0 : ℚ) < 0.35 := by norm_num
    linarith
  · intro rs p h
    obtain ⟨e, lvl⟩ := p
    unfold render3 at h
    have hlv : lvl ∈ labelLevels3 (axisMax3 rs)
        ((sortByKey (fun e => e.steps) (entries3 rs)).map (fun e => e.steps)) :=
      (List.of_mem_zip h).2
    have hlt : lvl < 3 := labelLevels3_lt _ _ _ hlv
    unfold labelY3 LABEL_LEVELS
    interval_cases lvl <;> norm_num

/-- C5 witness: pasos2 side at the single record (A, 5); pasos3 side at the
first placement for the same record. -/
theorem C5_label_above_marker_witness :
    (((({ name := "A", value := 5, icon := "" } : Record),
        markerY2pos [{ name := "A", value := 5, icon := "" }] 0,
        markerY2pos [{ name := "A", value := 5, icon := "" }] 0 + 0.35) : Record × ℚ × ℚ).2.1 <
      ((({ name := "A", value := 5, icon := "" } : Record),
        markerY2pos [{ name := "A", value := 5, icon := "" }] 0,
        markerY2pos [{ name := "A", value := 5, icon := "" }] 0 + 0.35) : Record × ℚ × ℚ).2.2) ∧
    (((render3 [{ name := "A", value := 5, icon := "" }]).getD 0 (entD, 0)).1.base_y <
      labelY3 ((render3 [{ name := "A", value := 5, icon := "" }]).getD 0 (entD, 0)).1
        ((render3 [{ name := "A", value := 5, icon := "" }]).getD 0 (entD, 0)).2) :=
  ⟨C5_label_above_marker.1 [{ name := "A", value := 5, icon := "" }] _
      (render2_pos_mem [{ name := "A", value := 5, icon := "" }] 0 (by decide)),
    C5_label_above_marker.2 [{ name := "A", value := 5, icon := "" }] _
      (by
        have hlen : 0 < (render3 [{ name := "A", value := 5, icon := "" }]).length := by decide
        rw [List.getD_eq_getElem _ _ hlen]
        exact List.getElem_mem hlen)⟩

/-- C4: two distinct records sharing the same value receive distinct marker y
offsets at least one stack step (0.35) apart, in both revisions (pasos2's
symmetric stack and pasos3's append stack). -/
theorem C4_distinct_stacked_markers (rs : List Record) (j k : ℕ)
    (hj : j < rs.length) (hk : k < rs.length) (hne : j ≠ k)
    (hv : (rs.getD j recD).value = (rs.getD k recD).value) :
    markerY2pos rs j ≠ markerY2pos rs k ∧
      0.35 ≤ |markerY2pos rs j - markerY2pos rs k| ∧
      baseY3pos rs j ≠ baseY3pos rs k ∧
      0.35 ≤ |baseY3pos rs j - baseY3pos rs k| := by
  have hg : groupSizeAt rs j = groupSizeAt rs k := by
    unfold groupSizeAt
    rw [hv]
  rcases Nat.lt_or_ge j k with hlt | hge
  · have hcb := countBefore_mono rs j k hlt hk hv
    have hab : (countBefore rs j : ℚ) + 1 ≤ (countBefore rs k : ℚ) := by exact_mod_cast hcb
    have h2 := stack_sep (0.55 - ((groupSizeAt rs j : ℚ) - 1) * (0.35 / 2)) _ _ hab
    have h3 := stack_sep (0.55 : ℚ) _ _ hab
    unfold markerY2pos baseY3pos
    rw [← hg]
    exact ⟨h2.1, h2.2, h3.1, h3.2⟩
  · have hlt : k < j := by omega
    have hcb := countBefore_mono rs k j hlt hj hv.symm
    have hab : (countBefore rs k : ℚ) + 1 ≤ (countBefore rs j : ℚ) := by exact_mod_cast hcb
    have h2 := stack_sep (0.55 - ((groupSizeAt rs k : ℚ) - 1) * (0.35 / 2)) _ _ hab
    have h3 := stack_sep (0.55 : ℚ) _ _ hab
    unfold markerY2pos baseY3pos
    rw [hg]
    refine ⟨h2.1.symm, ?_, h3.1.symm, ?_⟩
    · rw [abs_sub_comm]
      exact h2.2
    · rw [abs_sub_comm]
      exact h3.2

/-- C4 witness: the two records tied at 100, positions 0 and 1. -/
theorem C4_distinct_stacked_markers_witness :
    markerY2pos twoTied 0 ≠ markerY2pos twoTied 1 ∧
      0.35 ≤ |markerY2pos twoTied 0 - markerY2pos twoTied 1| ∧
      baseY3pos twoTied 0 ≠ baseY3pos twoTied 1 ∧
      0.35 ≤ |baseY3pos twoTied 0 - baseY3pos twoTied 1| :=
  C4_distinct_stacked_markers twoTied 0 1 (by decide) (by decide) (by decide) (by decide)

/-- Four records with closely spaced values 100..103, used by the label
de-collision scenarios. -/
def fourClose : List Record :=
  [{ name := "A", value := 100, icon := "" }, { name := "B", value := 101, icon := "" },
    { name := "C", value := 102, icon := "" }, { name := "D", value := 103, icon := "" }]

/-- C2 counterexample: over the four ascending values 100..103 (pasos3 axis
bound 155, threshold 4.65) every gap is 1, so no record after the first starts
a cluster — yet the fourth entry (index 3) is assigned label level
(2 + 1) % 3 = 0.  Level 0 therefore does not imply "first record or gap above
the threshold": the claimed "if and only if" fails in the "only if"
direction at this input. -/
theorem C2_counterexample :
    axisMax3 fourClose = 155 ∧
    (render3 fourClose).map (fun p => p.2) = [0, 1, 2, 0] ∧
    labelLevels3 155 [100, 101, 102, 103] = [0, 1, 2, 0] ∧
    (labelLevels3 155 [100, 101, 102, 103]).getD 3 0 = 0 ∧
    ¬ ((((103 : ℤ) - 102 : ℤ) : ℚ) > (155 : ℚ) * 0.03) := by
  refine ⟨by decide, by decide, by decide, by decide, ?_⟩
  push_cast
  norm_num

/-- C2 (amended): in the de-collision pass over the ascending steps list, the
first record gets label level 0, and a later record gets level 0 IF its value
minus the previous record's value exceeds Δ = axisMax·0.03; otherwise it gets
(previous level + 1) % 3 — which is itself 0 whenever the previous level is 2,
so level 0 alone does not characterize cluster starts. -/
theorem C2_label_level_recurrence (ms : ℤ) (steps : List ℤ) :
    (steps ≠ [] → (labelLevels3 ms steps).getD 0 0 = 0) ∧
    (∀ i : ℕ, i + 1 < steps.length →
      (labelLevels3 ms steps).getD (i + 1) 0 =
        if ((steps.getD (i + 1) 0 - steps.getD i 0 : ℤ) : ℚ) > (ms : ℚ) * 0.03 then 0
        else ((labelLevels3 ms steps).getD i 0 + 1) % 3) := by
  constructor
  · exact labelLevels3_getD_zero ms steps
  · intro i h
    rw [labelLevels3_getD_succ ms steps i h]
    by_cases hf : farApart ms (steps.getD (i + 1) 0 - steps.getD i 0) = true
    · rw [if_pos hf, if_pos ((farApart_iff _ _).mp hf)]
    · rw [if_neg hf, if_neg (fun hq => hf ((farApart_iff _ _).mpr hq))]

/-- C2 witness: the recurrence instantiated on the four close values. -/
theorem C2_label_level_recurrence_witness :
    (labelLevels3 155 [100, 101, 102, 103]).getD 0 0 = 0 ∧
    (labelLevels3 155 [100, 101, 102, 103]).getD 1 0 =
      (if ((([100, 101, 102, 103] : List ℤ).getD 1 0
            - ([100, 101, 102, 103] : List ℤ).getD 0 0 : ℤ) : ℚ) > (155 : ℚ) * 0.03 then 0
       else ((labelLevels3 155 [100, 101, 102, 103]).getD 0 0 + 1) % 3) :=
  ⟨(C2_label_level_recurrence 155 [100, 101, 102, 103]).1 (by decide),
    (C2_label_level_recurrence 155 [100, 101, 102, 103]).2 0 (by decide)⟩

/-- C7 counterexample: for the two records tied at 100, pasos3 computes axis
bound 150 and its de-collision pass sees the sorted gaps [–, 0]; the gap 0
does not exceed the threshold 4.5, so the second tied record takes level
(0 + 1) % 3 = 1 — the two labels are NOT both at relative level 0 in the
pasos3 revision. -/
theorem C7_counterexample :
    axisMax3 twoTied = 150 ∧
    labelLevels3 (axisMax3 twoTied) [100, 100] = [0, 1] ∧
    (render3 twoTied).map (fun p => p.2) = [0, 1] ∧
    ((render3 twoTied).getD 1 (entD, 0)).2 = 1 := by
  refine ⟨by decide, by decide, by decide, by decide⟩

/-- C7 (amended): for records [(A,100),(B,100)] both revisions place the two
markers at distinct y offsets exactly 0.35 apart (pasos2: 0.375 and 0.725
symmetric around the baseline; pasos3: 0.55 and 0.90); pasos2 then gives both
labels the same fixed offset 0.35 above their markers (one shared "level"),
while pasos3's de-collision pass assigns the two sorted entries label levels
0 and 1. -/
theorem C7_two_tied_records :
    markerY2pos twoTied 0 = 0.375 ∧ markerY2pos twoTied 1 = 0.725 ∧
    markerY2pos twoTied 1 - markerY2pos twoTied 0 = 0.35 ∧
    baseY3pos twoTied 0 = 0.55 ∧ baseY3pos twoTied 1 = 0.9 ∧
    baseY3pos twoTied 1 - baseY3pos twoTied 0 = 0.35 ∧
    (∀ t : Record × ℚ × ℚ, t ∈ render2 twoTied → t.2.2 - t.2.1 = 0.35) ∧
    (render3 twoTied).map (fun p => p.2) = [0, 1] := by
  have hgs0 : groupSizeAt twoTied 0 = 2 := by decide
  have hgs1 : groupSizeAt twoTied 1 = 2 := by decide
  have hcb0 : countBefore twoTied 0 = 0 := by decide
  have hcb1 : countBefore twoTied 1 = 1 := by decide
  refine ⟨?_, ?_, ?_, ?_, ?_, ?_, ?_, by decide⟩
  · unfold markerY2pos
    rw [hgs0, hcb0]
    norm_num
  · unfold markerY2pos
    rw [hgs1, hcb1]
    norm_num
  · unfold markerY2pos
    rw [hgs0, hgs1, hcb0, hcb1]
    norm_num
  · unfold baseY3pos
    rw [hcb0]
    norm_num
  · unfold baseY3pos
    rw [hcb1]
    norm_num
  · unfold baseY3pos
    rw [hcb0, hcb1]
    norm_num
  · intro t ht
    unfold render2 at ht
    rw [List.mem_flatMap] at ht
    obtain ⟨g, hg, hm⟩ := ht
    rw [List.mem_map] at hm
    obtain ⟨p, hp, he⟩ := hm
    rw [← he]
    ring

theorem row2Record2_value (row : RawRow) (r : Record) (he : row2Record2 row = some r) :
    parseValue row.pasos = some r.value := by
  obtain ⟨nb, ps, ic⟩ := row
  cases nb with
  | none => exact absurd he (by simp [row2Record2])
  | some nm =>
    show parseValue ps = some r.value
    simp only [row2Record2] at he
    cases hp : parseValue ps with
    | none => rw [hp] at he; exact absurd he (by simp)
    | some v =>
      rw [hp] at he
      simp only [Option.map_some'] at he
      injection he with he2
      rw [← he2]

theorem row2Record3_value (row : RawRow) (r : Record) (he : row2Record3 row = some r) :
    parseValue row.pasos = some r.value := by
  obtain ⟨nb, ps, ic⟩ := row
  cases nb with
  | none => exact absurd he (by simp [row2Record3])
  | some nm =>
    show parseValue ps = some r.value
    simp only [row2Record3] at he
    by_cases hs : pyStrip nm = ""
    · rw [if_pos hs] at he
      exact absurd he (by simp)
    · rw [if_neg hs] at he
      cases hp : parseValue ps with
      | none => rw [hp] at he; exact absurd he (by simp)
      | some v =>
        rw [hp] at he
        simp only [Option.map_some'] at he
        injection he with he2
        rw [← he2]

/-- C8 (amended): every record the normalizers hand to the layout code carries
an integer value obtained by successfully parsing its raw cell after comma
stripping; non-negativity, however, is NOT guaranteed — `load_data` never
checks the sign, so a negative parsed value reaches the layout code unchanged
(see the counterexample). -/
theorem C8_parsed_integer_values (rows : List RawRow) (r : Record) :
    (r ∈ load_data3 rows → ∃ row ∈ rows, parseValue row.pasos = some r.value) ∧
    (r ∈ load_data2 rows → ∃ row ∈ rows, parseValue row.pasos = some r.value) := by
  constructor
  · intro h
    unfold load_data3 at h
    rw [List.mem_filterMap] at h
    obtain ⟨row, hrow, he⟩ := h
    exact ⟨row, hrow, row2Record3_value row r he⟩
  · intro h
    unfold load_data2 at h
    rw [List.mem_filterMap] at h
    obtain ⟨row, hrow, he⟩ := h
    exact ⟨row, hrow, row2Record2_value row r he⟩

/-- C8 counterexample: the raw row (name "A", value text "-5") survives
normalization in both revisions with the negative value -5, so upstream
normalization does not guarantee non-negative values reaching the layout
code. -/
theorem C8_counterexample :
    load_data3 [{ nombre := some "A", pasos := "-5", icon := "" }]
        = [{ name := "A", value := -5, icon := "" }] ∧
      load_data2 [{ nombre := some "A", pasos := "-5", icon := "" }]
        = [{ name := "A", value := -5, icon := "" }] ∧
      ({ name := "A", value := -5, icon := "" } : Record).value < 0 := by
  refine ⟨by decide, by decide, by decide⟩

/-- C8 witness: the amended theorem applied to the negative-value row. -/
theorem C8_parsed_integer_values_witness :
    (∃ row ∈ [({ nombre := some "A", pasos := "-5", icon := "" } : RawRow)],
      parseValue row.pasos
        = some ({ name := "A", value := -5, icon := "" } : Record).value) ∧
    (∃ row ∈ [({ nombre := some "A", pasos := "-5", icon := "" } : RawRow)],
      parseValue row.pasos
        = some ({ name := "A", value := -5, icon := "" } : Record).value) :=
  ⟨(C8_parsed_integer_values [{ nombre := some "A", pasos := "-5", icon := "" }]
      { name := "A", value := -5, icon := "" }).1 (by decide),
    (C8_parsed_integer_values [{ nombre := some "A", pasos := "-5", icon := "" }]
      { name := "A", value := -5, icon := "" }).2 (by decide)⟩

/-- C9: the normalizers drop a row whose name cell is missing (pasos3 also
drops a name that strips to empty) and drop a row whose value cell fails
numeric parsing; no error path exists — `pd.to_numeric(errors="coerce")` turns
a parse failure into a missing value (`none` here), which flows into the drop
rather than raising. -/
theorem C9_drop_unparseable_rows (row : RawRow) :
    (row.nombre = none → row2Record2 row = none ∧ row2Record3 row = none) ∧
    (∀ nm, row.nombre = some nm → pyStrip nm = "" → row2Record3 row = none) ∧
    (parseValue row.pasos = none → row2Record2 row = none ∧ row2Record3 row = none) := by
  obtain ⟨nb, ps, ic⟩ := row
  refine ⟨?_, ?_, ?_⟩
  · intro h
    cases nb with
    | none => exact ⟨rfl, rfl⟩
    | some nm => exact absurd h (by simp)
  · intro nm hnm hs
    cases nb with
    | none => exact absurd hnm (by simp)
    | some nm2 =>
      have h2 : nm2 = nm := by
        have := hnm
        simp only [] at this
        injection this
      subst h2
      simp [row2Record3, hs]
  · intro hp
    constructor
    · cases nb with
      | none => rfl
      | some nm =>
        show row2Record2 { nombre := some nm, pasos := ps, icon := ic } = none
        simp only [row2Record2] at hp ⊢
        rw [hp]
        rfl
    · cases nb with
      | none => rfl
      | some nm =>
        by_cases hs : pyStrip nm = ""
        · simp [row2Record3, hs]
        · simp only [row2Record3, if_neg hs] at hp ⊢
          rw [hp]
          rfl

/-- C9 witness: a missing name, a whitespace-only name, and an unparseable
value text are each dropped. -/
theorem C9_drop_unparseable_rows_witness :
    (row2Record2 { nombre := none, pasos := "5", icon := "" } = none ∧
      row2Record3 { nombre := none, pasos := "5", icon := "" } = none) ∧
    row2Record3 { nombre := some "   ", pasos := "5", icon := "" } = none ∧
    (row2Record2 { nombre := some "A", pasos := "12x", icon := "" } = none ∧
      row2Record3 { nombre := some "A", pasos := "12x", icon := "" } = none) :=
  ⟨(C9_drop_unparseable_rows { nombre := none, pasos := "5", icon := "" }).1 rfl,
    (C9_drop_unparseable_rows { nombre := some "   ", pasos := "5", icon := "" }).2.1
      "   " rfl (by decide),
    (C9_drop_unparseable_rows { nombre := some "A", pasos := "12x", icon := "" }).2.2
      (by decide)⟩

/-- C7 witness: the pasos2 fixed-label-offset clause of the amended statement
instantiated at the first placed record. -/
theorem C7_two_tied_records_witness :
    ((twoTied.getD 0 recD, markerY2pos twoTied 0, markerY2pos twoTied 0 + 0.35)
        : Record × ℚ × ℚ).2.2 -
      ((twoTied.getD 0 recD, markerY2pos twoTied 0, markerY2pos twoTied 0 + 0.35)
        : Record × ℚ × ℚ).2.1 = 0.35 :=
  C7_two_tied_records.2.2.2.2.2.2.1 _ (render2_pos_mem twoTied 0 (by decide))
